import Mathlib

/-!
Verification of the retrieval-augmented-memory core of the AHA-Data
repository, shallowly embedded in Lean 4.

Embedded source files:
  * app/utils/text_processing/reciprocal_rank_fusion.py  (function rrf)
  * app/utils/text_processing/text_embedding.py          (compute_sparse_vector, embed)
  * app/database/qdrant_client.py                        (get_all_messages,
      remove_oldest_message, ensure_collection_exists, add_message_vector,
      get_recent_conversations)

Modelling conventions:
  * Python floats are modelled as rationals; the score arithmetic of rrf
    (sums of two reciprocals of small integers) is exact in this range and
    no comparison in any claim is decided by sub-ulp margins.
  * Python dicts are modelled as association lists with dict insertion
    semantics (first-occurrence key order, last write wins); dict.get is a
    first-match lookup.
  * Python sorted(...) is stable; it is modelled by List.insertionSort with
    a non-strict total preorder, which is the unique stable sort.
  * The set union dense_scores.keys() | sparse_scores.keys() in rrf has an
    iteration order that depends on string hashing (randomized per process);
    it is modelled by an explicit enumeration parameter ranging over all
    duplicate-free lists with exactly the members of the union.
  * Remote Qdrant calls are modelled as Except-valued operations on an
    optional point list (none = collection absent); per-call failure
    injection flags model network and service errors.  Payload timestamps
    (ISO strings compared lexicographically in the source) are modelled as
    naturals with their linear order.
-/

/-! ## Python dict primitives (association lists) -/

/-- Test whether a Python dict (association list) has a key. -/
def dictHasKey {α : Type} (d : List (String × α)) (key : String) : Bool :=
  d.any (fun p => p.1 == key)

/-- Python dict assignment: overwrite in place if the key exists, else append. -/
def dictInsert {α : Type} (d : List (String × α)) (key : String) (v : α) :
    List (String × α) :=
  if dictHasKey d key then d.map (fun p => if p.1 == key then (key, v) else p)
  else d ++ [(key, v)]

/-- Build a Python dict from a list of key-value pairs by repeated assignment
(first-occurrence key order, last write wins), as the dict comprehensions in
rrf do. -/
def dictOfList {α : Type} (l : List (String × α)) : List (String × α) :=
  l.foldl (fun d p => dictInsert d p.1 p.2) []

/-- Python dict lookup returning an optional value. -/
def dictGet? {α : Type} (d : List (String × α)) (key : String) : Option α :=
  (d.find? (fun p => p.1 == key)).map Prod.snd

/-- Python dict.get with a default. -/
def dictGetD {α : Type} (d : List (String × α)) (key : String) (dflt : α) : α :=
  (dictGet? d key).getD dflt

/-- Position of the first pair with the given key, used to model lookups in
the enumerate-built rank dicts of rrf. -/
def posOf {α : Type} (key : String) : List (String × α) → Option ℕ
  | [] => none
  | p :: l => if p.1 == key then some 0 else (posOf key l).map (fun n => n + 1)

/-! ## Reciprocal rank fusion (reciprocal_rank_fusion.py, function rrf) -/

/-- One Qdrant scored point as consumed by rrf: a (stringified) id, a score
and a payload dict. -/
structure RPoint where
  id : String
  score : ℚ
  payload : List (String × String)
deriving DecidableEq, Inhabited

/-- The comparison used by sorted(..., key=lambda x: x[1], reverse=True):
a non-strict descending order on the score component, giving the stable
descending sort of Python. -/
def scoreDesc (a b : String × ℚ) : Prop := b.2 ≤ a.2

instance : DecidableRel scoreDesc := fun a b => inferInstanceAs (Decidable (b.2 ≤ a.2))

instance : IsTotal (String × ℚ) scoreDesc := ⟨fun a b => le_total b.2 a.2⟩

instance : IsTrans (String × ℚ) scoreDesc := ⟨fun _ _ _ h1 h2 => le_trans h2 h1⟩

/-- Python sorted(items, key=lambda x: x[1], reverse=True): the stable
descending sort by score. -/
def sortByScoreDesc (l : List (String × ℚ)) : List (String × ℚ) :=
  List.insertionSort scoreDesc l

/-- dense_scores = \x7bstr(r.id): r.score for r in dense_results\x7d (and the
sparse analogue). -/
def scoresOf (l : List RPoint) : List (String × ℚ) :=
  dictOfList (l.map (fun r => (r.id, r.score)))

/-- Rank lookup of rrf: dense_ranks = \x7bdoc_id: rank + 1 ...\x7d built by
enumerating the sorted score items, read back with
dense_ranks.get(doc_id, rawLen + 1) where rawLen is the length of the raw
result list. -/
def rankGet (scores : List (String × ℚ)) (rawLen : ℕ) (key : String) : ℕ :=
  match posOf key (sortByScoreDesc scores) with
  | some n => n + 1
  | none => rawLen + 1

/-- The fused score rrf assigns to a candidate id:
1/(k + dense_rank) + 1/(k + sparse_rank). -/
def fusedScore (dense sparse : List RPoint) (k : ℕ) (x : String) : ℚ :=
  1 / ((k + rankGet (scoresOf dense) dense.length x : ℕ) : ℚ)
    + 1 / ((k + rankGet (scoresOf sparse) sparse.length x : ℕ) : ℚ)

/-- A canonical duplicate-free list of the members of
dense_scores.keys() | sparse_scores.keys() (order irrelevant: it is only
used up to permutation). -/
def unionIds (dense sparse : List RPoint) : List String :=
  ((scoresOf dense).map Prod.fst ++ (scoresOf sparse).map Prod.fst).dedup

/-- A list is a valid iteration order of the candidate id set of rrf iff it
enumerates each member of the key-set union exactly once.  The actual order
produced by CPython depends on the process hash seed, so every permutation
must be considered. -/
def ValidEnum (dense sparse : List RPoint) (enum : List String) : Prop :=
  List.Perm enum (unionIds dense sparse)

instance (dense sparse : List RPoint) (enum : List String) :
    Decidable (ValidEnum dense sparse enum) :=
  inferInstanceAs (Decidable (List.Perm enum (unionIds dense sparse)))

/-- rrf_scores: the dict built by iterating over the candidate id set in the
given enumeration order. -/
def rrfScoresList (dense sparse : List RPoint) (k : ℕ) (enum : List String) :
    List (String × ℚ) :=
  dictOfList (enum.map (fun x => (x, fusedScore dense sparse k x)))

/-- top_doc_ids: both branches of the source (heapq.nlargest on the items,
documented as equivalent to sorted(items, key, reverse=True)[:n], and the
explicit stable descending sort of the keys sliced to n_points) compute the
first n_points keys of the stable descending sort of rrf_scores. -/
def topDocIds (dense sparse : List RPoint) (nPoints k : ℕ) (enum : List String) :
    List String :=
  ((sortByScoreDesc (rrfScoresList dense sparse k enum)).map Prod.fst).take nPoints

/-- doc_lookup: built by assigning dense results then sparse results, so a
point present in both lists is looked up from the sparse list. -/
def docLookup (dense sparse : List RPoint) : List (String × RPoint) :=
  dictOfList ((dense ++ sparse).map (fun r => (r.id, r)))

/-- The block separator joined between context chunks (66 dashes). -/
def rrfSeparator : String :=
  "\n\n------------------------------------------------------------------\n\n"

/-- One context chunk of rrf: for each requested payload key, the line
"Context idx: value" (value = doc.payload.get(key, '')), joined by
newlines. -/
def contextChunk (doc : RPoint) (idx : ℕ) (payloadKeys : List String) : String :=
  String.intercalate "\n"
    (payloadKeys.map (fun key =>
      "Context " ++ toString idx ++ ": " ++ dictGetD doc.payload key ""))

/-- The chunk-accumulation loop of rrf (for idx, doc_id in
enumerate(top_doc_ids): ... context_chunks.append(...)). -/
def buildChunks (top : List String) (lookup : List (String × RPoint))
    (payloadKeys : List String) : List String :=
  top.enum.foldl
    (fun acc q => acc ++ [contextChunk (dictGetD lookup q.2 default) q.1 payloadKeys])
    []

/-- The full rrf function on well-formed inputs (the surrounding
try/except only fires on malformed argument shapes, which are outside this
model), parameterized by the candidate-set enumeration order. -/
def rrf (dense sparse : List RPoint) (nPoints k : ℕ) (payloadKeys : List String)
    (enum : List String) : String :=
  String.intercalate rrfSeparator
    (buildChunks (topDocIds dense sparse nPoints k enum) (docLookup dense sparse)
      payloadKeys)

/-! ### Definitions written from the specification text (for refinement
claims about rrf) -/

/-- Modelled from the spec: the 1-based position of an id under the stable
score-descending order of a result list, with absent ids ranked just past
the end of the list (length + 1). -/
def specRankDescending (l : List RPoint) (x : String) : ℕ :=
  match posOf x (sortByScoreDesc (l.map (fun r => (r.id, r.score)))) with
  | some n => n + 1
  | none => l.length + 1

/-- Modelled from the spec: score(id) = 1/(k + rank_dense(id)) +
1/(k + rank_sparse(id)). -/
def specFusedScore (dense sparse : List RPoint) (k : ℕ) (x : String) : ℚ :=
  1 / ((k + specRankDescending dense x : ℕ) : ℚ)
    + 1 / ((k + specRankDescending sparse x : ℕ) : ℚ)

/-- Modelled from the spec: a projection line of the form "key: value". -/
def specKeyLine (key value : String) : String := key ++ ": " ++ value

/-- Modelled from the amended claim: the block a selected point yields —
one line "Context idx: value" per requested key (the key name does not
appear and the position label is repeated on every line), joined by
newlines. -/
def amendedBlock (idx : ℕ) (payload : List (String × String))
    (payloadKeys : List String) : String :=
  String.intercalate "\n"
    (payloadKeys.map (fun key =>
      "Context " ++ toString idx ++ ": " ++ dictGetD payload key ""))

/-- The literal fixture of the spec (section 8): dense results
A: 0.9, B: 0.8, C: 0.7. -/
def fixtureDense : List RPoint :=
  [⟨"A", 9/10, [("content", "a")]⟩, ⟨"B", 8/10, [("content", "b")]⟩,
   ⟨"C", 7/10, [("content", "c")]⟩]

/-- The literal fixture of the spec (section 8): sparse results
B: 5.0, D: 4.0, A: 3.0. -/
def fixtureSparse : List RPoint :=
  [⟨"B", 5, [("content", "b")]⟩, ⟨"D", 4, [("content", "d")]⟩,
   ⟨"A", 3, [("content", "a")]⟩]

/-! ## Sparse embedding pipeline (text_embedding.py, compute_sparse_vector)

The neural steps (tokenization, masked-LM logits) are inputs of the model:
logits is the seq-by-vocab matrix output.logits (batch squeezed), mask the
attention mask row.  The floating-point log is an abstract function
parameter lg; the claims only use that log(1 + relu x) is non-negative,
which holds for IEEE floats since 1 + relu x is at least 1. -/

/-- torch.relu on one cell. -/
def relu (x : ℚ) : ℚ := max 0 x

/-- relu_log = torch.log(1 + torch.relu(logits)), cellwise, with the float
log abstracted as lg. -/
def reluLog (lg : ℚ → ℚ) (x : ℚ) : ℚ := lg (1 + relu x)

/-- weighted_log = relu_log * attention_mask.unsqueeze(-1): row t of the
logits is scaled by mask entry t. -/
def weightedLog (lg : ℚ → ℚ) (logits : List (List ℚ)) (mask : List ℚ) :
    List (List ℚ) :=
  List.zipWith (fun m row => row.map (fun x => reluLog lg x * m)) mask logits

/-- torch.max(weighted_log, dim=1): columnwise max over token positions
(empty input gives the empty vector; the tokenizer always produces at least
the CLS/SEP rows). -/
def maxPool : List (List ℚ) → List ℚ
  | [] => []
  | r :: rs => rs.foldl (fun acc row => List.zipWith max acc row) r

/-- vec = torch.max(relu_log * mask, dim=1).squeeze(). -/
def sparseVec (lg : ℚ → ℚ) (logits : List (List ℚ)) (mask : List ℚ) : List ℚ :=
  maxPool (weightedLog lg logits mask)

/-- compute_sparse_vector from the squeezed vector on: indices =
torch.nonzero(vec) (ascending positions of the non-zero cells), values =
vec[indices]. -/
def computeSparse (lg : ℚ → ℚ) (logits : List (List ℚ)) (mask : List ℚ) :
    List ℕ × List ℚ :=
  let vec := sparseVec lg logits mask
  let indices := (vec.enum.filter (fun p => !(p.2 == 0))).map Prod.fst
  let values := indices.map (fun i => vec.getD i 0)
  (indices, values)

/-! ## embed (text_embedding.py, embed)

The two model invocations are abstracted as functions of the text; the
failure-injection booleans model exceptions raised inside
compute_dense_vector and compute_sparse_vector (model load failure,
inference failure).  The except clause of embed catches everything and
returns ([], [], []). -/

/-- The loaded model pair: dense encoder and sparse (indices, values)
encoder, as pure functions of the text. -/
structure EmbModel where
  dense : String → List ℚ
  sparse : String → List ℕ × List ℚ

/-- embed: gather the two computations; on any exception in either, catch
and return ([], [], []).  The result is the Except view of the call — an
error value would mean an exception escaping embed. -/
def embedE (dFail sFail : Bool) (em : EmbModel) (text : String) :
    Except Unit (List ℚ × (List ℕ × List ℚ)) :=
  match (if dFail then Except.error () else Except.ok (em.dense text) :
          Except Unit (List ℚ)),
        (if sFail then Except.error () else Except.ok (em.sparse text) :
          Except Unit (List ℕ × List ℚ)) with
  | Except.ok d, Except.ok sv => Except.ok (d, sv)
  | _, _ => Except.ok ([], ([], []))

/-! ## Memory window (qdrant_client.py)

State: none = collection absent, some pts = collection with its points in
insertion order.  Each remote call takes a failure-injection flag; a failing
call raises (Except.error) before mutating state.  Point payload fields are
the record fields; the ISO timestamp strings (compared lexicographically by
sorted) are modelled as naturals. -/

/-- One stored point with its payload and vectors. -/
structure MPoint where
  id : ℕ
  timestamp : ℕ
  convId : String
  userMsg : String
  botResp : String
  dense : List ℚ
  sparseIdx : List ℕ
  sparseVal : List ℚ
deriving DecidableEq, Inhabited

/-- A Qdrant collection as seen by this client. -/
abbrev QState := Option (List MPoint)

/-- Failure-injection flags for the remote calls made by
add_message_vector. -/
structure FailCfg where
  ensureFail : Bool
  scrollFail : Bool
  deleteFail : Bool
  embedFail : Bool
  upsertFail : Bool
deriving DecidableEq

/-- The all-success configuration (healthy index and models). -/
def cfgOk : FailCfg := ⟨false, false, false, false, false⟩

/-- qdrant_client.scroll: raises on an injected failure or an absent
collection, else returns up to limit points with payloads. -/
def qdScroll (fail : Bool) (s : QState) (limit : ℕ) : Except Unit (List MPoint) :=
  if fail then Except.error ()
  else match s with
    | none => Except.error ()
    | some pts => Except.ok (pts.take limit)

/-- get_all_messages: scroll with limit 100; any exception is caught and
the empty list returned. -/
def getAllMessages (fail : Bool) (s : QState) : List MPoint :=
  match qdScroll fail s 100 with
  | Except.ok pts => pts
  | Except.error _ => []

/-- The comparison used by sorted(existing_messages, key=lambda p:
p.payload["timestamp"]) — non-strict ascending, the stable sort order. -/
def tsAsc (a b : MPoint) : Prop := a.timestamp ≤ b.timestamp

instance : DecidableRel tsAsc := fun a b =>
  inferInstanceAs (Decidable (a.timestamp ≤ b.timestamp))

instance : IsTotal MPoint tsAsc := ⟨fun a b => Nat.le_total a.timestamp b.timestamp⟩

instance : IsTrans MPoint tsAsc := ⟨fun _ _ _ h1 h2 => Nat.le_trans h1 h2⟩

/-- Python sorted by ascending payload timestamp (stable). -/
def sortByTimestamp (l : List MPoint) : List MPoint := List.insertionSort tsAsc l

/-- qdrant_client.delete with a one-id PointIdsList: raises on injected
failure or absent collection, else removes every point with that id. -/
def qdDelete (fail : Bool) (s : QState) (pid : ℕ) : Except Unit QState :=
  if fail then Except.error ()
  else match s with
    | none => Except.error ()
    | some pts => Except.ok (some (pts.filter (fun p => !(p.id == pid))))

/-- remove_oldest_message: no-op on an empty listing; otherwise delete the
head of the ascending-timestamp sort; any exception is caught and the state
left as the failed call left it (a failing delete mutates nothing). -/
def removeOldestMessage (fail : Bool) (s : QState) (existing : List MPoint) :
    QState :=
  match existing with
  | [] => s
  | _ :: _ =>
    match qdDelete fail s (sortByTimestamp existing).headI.id with
    | Except.ok s2 => s2
    | Except.error _ => s

/-- ensure_collection_exists: create-if-absent; any exception is caught and
logged, leaving the state unchanged. -/
def ensureCollectionExists (fail : Bool) (s : QState) : QState :=
  if fail then s
  else match s with
    | none => some []
    | some pts => some pts

/-- qdrant_client.upsert of one point: raises on injected failure or absent
collection, else appends the point. -/
def qdUpsert (fail : Bool) (s : QState) (p : MPoint) : Except Unit QState :=
  if fail then Except.error ()
  else match s with
    | none => Except.error ()
    | some pts => Except.ok (some (pts ++ [p]))

/-- The caller-supplied arguments of add_message_vector, plus the uuid4
point id drawn for the upsert. -/
structure MsgArgs where
  newId : ℕ
  convId : String
  userMsg : String
  botResp : String
  timestamp : ℕ

/-- The point add_message_vector upserts for the given arguments. -/
def newPoint (dv : List ℚ) (si : List ℕ) (sv : List ℚ)
    (a : MsgArgs) : MPoint :=
  { id := a.newId, timestamp := a.timestamp, convId := a.convId,
    userMsg := a.userMsg, botResp := a.botResp, dense := dv,
    sparseIdx := si, sparseVal := sv }

/-- The try-block of add_message_vector: ensure the collection, list
existing points, evict the oldest if the listing has at least 50 points,
embed, upsert.  An escaping exception carries the state the side effects
have reached (Except.error). -/
def addMessageBody (cfg : FailCfg) (em : EmbModel) (s : QState) (a : MsgArgs) :
    Except QState QState :=
  let s1 := ensureCollectionExists cfg.ensureFail s
  let existing := getAllMessages cfg.scrollFail s1
  let s2 := if 50 ≤ existing.length then removeOldestMessage cfg.deleteFail s1 existing
            else s1
  match embedE cfg.embedFail cfg.embedFail em a.userMsg with
  | Except.error _ => Except.error s2
  | Except.ok (dv, (si, sv)) =>
    match qdUpsert cfg.upsertFail s2 (newPoint dv si sv a) with
    | Except.ok s3 => Except.ok s3
    | Except.error _ => Except.error s2

/-- add_message_vector: the try-block wrapped in the catch-all except
clause, which logs and returns None, so the call always returns normally
(Except.ok) with the state the side effects reached. -/
def addMessageVectorExc (cfg : FailCfg) (em : EmbModel) (s : QState)
    (a : MsgArgs) : Except Unit QState :=
  match addMessageBody cfg em s a with
  | Except.ok s3 => Except.ok s3
  | Except.error sf => Except.ok sf

/-- The state after a completed add_message_vector call. -/
def addMessageVector (cfg : FailCfg) (em : EmbModel) (s : QState) (a : MsgArgs) :
    QState :=
  match addMessageBody cfg em s a with
  | Except.ok s3 => s3
  | Except.error sf => sf

/-- The separator of get_recent_conversations (60 dashes). -/
def recentSeparator : String :=
  "\n\n------------------------------------------------------------\n\n"

/-- The sentinel returned when the scroll yields no points. -/
def firstMessageSentinel : String := "This is user's first ever message"

/-- One formatted conversation: the block label on its own line, then one
"key: value" line per payload key in ['user_message', 'bot_response']. -/
def conversationChunk (idx : ℕ) (p : MPoint) : String :=
  "Conversation " ++ toString idx ++ ":\n" ++
    String.intercalate "\n"
      ["user_message: " ++ p.userMsg, "bot_response: " ++ p.botResp]

/-- get_recent_conversations: scroll up to limit points; on any exception
return ""; on an empty listing return the sentinel; otherwise sort the page
by ascending timestamp and render it. -/
def getRecentConversations (fail : Bool) (s : QState) (limit : ℕ) : String :=
  match qdScroll fail s limit with
  | Except.error _ => ""
  | Except.ok pts =>
    match pts with
    | [] => firstMessageSentinel
    | _ :: _ =>
      "Recent conversations:\n" ++
        String.intercalate recentSeparator
          ((sortByTimestamp pts).enum.map (fun q => conversationChunk q.1 q.2))

/-- The arguments of the i-th sequential record call of the window
scenario: fresh uuid modelled as the call index, fixed texts, timestamp
ts i. -/
def seqArgs (ts : ℕ → ℕ) (i : ℕ) : MsgArgs :=
  { newId := i, convId := "c", userMsg := "u", botResp := "b", timestamp := ts i }

/-- The point the i-th sequential record call stores. -/
def seqPoint (em : EmbModel) (ts : ℕ → ℕ) (i : ℕ) : MPoint :=
  newPoint (em.dense "u") (em.sparse "u").1 (em.sparse "u").2 (seqArgs ts i)

/-- N sequential, non-concurrent record calls on a fresh (absent)
collection with a healthy index. -/
def runRecord (em : EmbModel) (ts : ℕ → ℕ) : ℕ → QState
  | 0 => none
  | n + 1 => addMessageVector cfgOk em (runRecord em ts n) (seqArgs ts n)

/-- The observable point set of a collection. -/
def collectionPoints (s : QState) : List MPoint := s.getD []

/-- The window the sequential scenario reaches after n calls (for n
positive): the last min n 50 inserted points, in insertion order. -/
def windowList (em : EmbModel) (ts : ℕ → ℕ) (n : ℕ) : List MPoint :=
  (List.range' (n - min n 50) (min n 50)).map (seqPoint em ts)

/-- A concrete loaded model used to instantiate the hypotheses of the
claims: a 384-dimensional zero dense encoder and an empty sparse encoder. -/
def emConst : EmbModel := ⟨fun _ => List.replicate 384 0, fun _ => ([], [])⟩

/-- Strict-descending-score-or-equal: the auxiliary order under which the
stable descending sort of a duplicate-free score list is the unique sorted
permutation. -/
def scoreStrictOrEq (a b : String × ℚ) : Prop := b.2 < a.2 ∨ a = b

instance : IsAntisymm (String × ℚ) scoreStrictOrEq :=
  ⟨fun a b h1 h2 => by
    rcases h1 with h1 | h1
    · rcases h2 with h2 | h2
      · exact absurd (lt_trans h1 h2) (lt_irrefl _)
      · exact h2.symm
    · exact h1⟩

/-- A one-point dense result whose payload value differs from its key, used
to exhibit the shape of the projected context lines. -/
def c3Dense : List RPoint := [⟨"A", 1, [("user_message", "hi")]⟩]

/-- A dense list giving X rank 1 and Y rank 2. -/
def tieDense : List RPoint :=
  [⟨"X", 2, [("c", "from-dense-x")]⟩, ⟨"Y", 1, [("c", "from-dense-y")]⟩]

/-- A sparse list giving Y rank 1 and X rank 2, so X and Y tie on fused
score. -/
def tieSparse : List RPoint :=
  [⟨"Y", 2, [("c", "from-sparse-y")]⟩, ⟨"X", 1, [("c", "from-sparse-x")]⟩]

/-- A collection of 50 points with distinct ids and distinct timestamps. -/
def c5Pts : List MPoint :=
  (List.range 50).map (fun i => ⟨i, i, "c", "u", "b", [], [], []⟩)

/-- Call arguments for the single observed record call on c5Pts. -/
def c5Args : MsgArgs := ⟨1000, "c", "u", "b", 777⟩

/-! ## Helper lemmas -/

theorem dictHasKey_eq_false {α : Type} (d : List (String × α)) (key : String)
    (h : key ∉ d.map Prod.fst) : dictHasKey d key = false := by
  rw [dictHasKey, List.any_eq_false]
  intro p hp hbeq
  exact h (List.mem_map.mpr ⟨p, hp, beq_iff_eq.mp hbeq⟩)

theorem dictInsert_of_fresh {α : Type} (d : List (String × α)) (key : String)
    (v : α) (h : key ∉ d.map Prod.fst) : dictInsert d key v = d ++ [(key, v)] := by
  rw [dictInsert, dictHasKey_eq_false d key h]
  simp

theorem foldl_dictInsert_eq_append {α : Type} (l : List (String × α)) :
    ∀ acc : List (String × α), (((acc ++ l).map Prod.fst).Nodup) →
      l.foldl (fun d p => dictInsert d p.1 p.2) acc = acc ++ l := by
  induction l with
  | nil => intro acc _; simp
  | cons p l ih =>
    intro acc h
    have hrearr : acc ++ p :: l = (acc ++ [p]) ++ l := by simp
    have hkey : p.1 ∉ acc.map Prod.fst := by
      rw [List.map_append, List.nodup_append] at h
      intro hmem
      exact h.2.2 hmem (by simp)
    have hins : dictInsert acc p.1 p.2 = acc ++ [p] := by
      rw [dictInsert_of_fresh acc p.1 p.2 hkey]
    rw [List.foldl_cons, hins, ih (acc ++ [p]) (by rw [← hrearr]; exact h), ← hrearr]

theorem dictOfList_eq_self {α : Type} (l : List (String × α))
    (h : (l.map Prod.fst).Nodup) : dictOfList l = l := by
  rw [dictOfList, foldl_dictInsert_eq_append l [] (by simpa using h)]
  simp

theorem dictGet?_map_pair {α : Type} (f : String → α) (l : List String)
    (x : String) :
    dictGet? (l.map (fun a => (a, f a))) x =
      if x ∈ l then some (f x) else none := by
  induction l with
  | nil => rfl
  | cons a l ih =>
    by_cases hax : a = x
    · subst hax
      simp [dictGet?, List.find?]
    · rw [List.map_cons]
      rw [dictGet?, List.find?]
      have hbeq : (a == x) = false := beq_eq_false_iff_ne.mpr hax
      simp only [hbeq]
      rw [← dictGet?]
      rw [ih]
      simp [List.mem_cons, hax, Ne.symm hax]

theorem sortByScoreDesc_eq_of_perm (l1 l2 : List (String × ℚ))
    (hp : List.Perm l1 l2) (hnd : (l1.map Prod.snd).Nodup) :
    sortByScoreDesc l1 = sortByScoreDesc l2 := by
  have hps1 := List.perm_insertionSort scoreDesc l1
  have hps2 := List.perm_insertionSort scoreDesc l2
  have hperm : List.Perm (sortByScoreDesc l1) (sortByScoreDesc l2) :=
    (hps1.trans hp).trans hps2.symm
  have hsymm : ∀ {x y : String × ℚ}, x.2 ≠ y.2 → y.2 ≠ x.2 :=
    fun h => Ne.symm h
  have hsnd1 : List.Pairwise (fun a b : String × ℚ => a.2 ≠ b.2) l1 :=
    List.pairwise_map.mp hnd
  have hnd2 : (l2.map Prod.snd).Nodup := hnd.perm (hp.map Prod.snd)
  have hsnd2 : List.Pairwise (fun a b : String × ℚ => a.2 ≠ b.2) l2 :=
    List.pairwise_map.mp hnd2
  have hne1 : List.Pairwise (fun a b : String × ℚ => a.2 ≠ b.2) (sortByScoreDesc l1) :=
    (hps1.pairwise_iff hsymm).mpr hsnd1
  have hne2 : List.Pairwise (fun a b : String × ℚ => a.2 ≠ b.2) (sortByScoreDesc l2) :=
    (hps2.pairwise_iff hsymm).mpr hsnd2
  have hsort1 : List.Pairwise scoreDesc (sortByScoreDesc l1) :=
    List.sorted_insertionSort scoreDesc l1
  have hsort2 : List.Pairwise scoreDesc (sortByScoreDesc l2) :=
    List.sorted_insertionSort scoreDesc l2
  have hstrict1 : List.Sorted scoreStrictOrEq (sortByScoreDesc l1) :=
    (hsort1.and hne1).imp
      (fun h => Or.inl (lt_of_le_of_ne h.1 (Ne.symm h.2)))
  have hstrict2 : List.Sorted scoreStrictOrEq (sortByScoreDesc l2) :=
    (hsort2.and hne2).imp
      (fun h => Or.inl (lt_of_le_of_ne h.1 (Ne.symm h.2)))
  exact List.eq_of_perm_of_sorted hperm hstrict1 hstrict2

theorem rrfScoresList_eq_map (dense sparse : List RPoint) (k : ℕ)
    (enum : List String) (hnd : enum.Nodup) :
    rrfScoresList dense sparse k enum =
      enum.map (fun x => (x, fusedScore dense sparse k x)) := by
  apply dictOfList_eq_self
  rw [List.map_map]
  have hid : (Prod.fst ∘ fun x : String => (x, fusedScore dense sparse k x)) = id := rfl
  rw [hid, List.map_id]
  exact hnd

theorem unionIds_nodup (dense sparse : List RPoint) :
    (unionIds dense sparse).Nodup := List.nodup_dedup _

theorem validEnum_nodup {dense sparse : List RPoint} {enum : List String}
    (h : ValidEnum dense sparse enum) : enum.Nodup :=
  (unionIds_nodup dense sparse).perm h.symm

theorem topDocIds_enum_irrelevant (dense sparse : List RPoint)
    (nPoints k : ℕ) (e1 e2 : List String)
    (h1 : ValidEnum dense sparse e1) (h2 : ValidEnum dense sparse e2)
    (hinj : ((unionIds dense sparse).map (fusedScore dense sparse k)).Nodup) :
    topDocIds dense sparse nPoints k e1 = topDocIds dense sparse nPoints k e2 := by
  rw [topDocIds, topDocIds,
    rrfScoresList_eq_map dense sparse k e1 (validEnum_nodup h1),
    rrfScoresList_eq_map dense sparse k e2 (validEnum_nodup h2)]
  have hp : List.Perm (e1.map (fun x => (x, fusedScore dense sparse k x)))
      (e2.map (fun x => (x, fusedScore dense sparse k x))) :=
    (h1.trans h2.symm).map _
  have hnd : ((e1.map (fun x => (x, fusedScore dense sparse k x))).map Prod.snd).Nodup := by
    rw [List.map_map]
    have hfe : (e1.map (fusedScore dense sparse k)).Nodup :=
      hinj.perm ((h1.map (fusedScore dense sparse k)).symm)
    simpa using hfe
  rw [sortByScoreDesc_eq_of_perm _ _ hp hnd]

theorem foldl_append_eq_map {α β : Type} (f : α → β) (l : List α) :
    ∀ acc : List β, l.foldl (fun acc q => acc ++ [f q]) acc = acc ++ l.map f := by
  induction l with
  | nil => intro acc; simp
  | cons a l ih => intro acc; rw [List.foldl_cons, ih]; simp

theorem buildChunks_eq_map (top : List String) (lookup : List (String × RPoint))
    (payloadKeys : List String) :
    buildChunks top lookup payloadKeys =
      top.enum.map
        (fun q => contextChunk (dictGetD lookup q.2 default) q.1 payloadKeys) := by
  rw [buildChunks, foldl_append_eq_map]
  simp

theorem sortByTimestamp_headI_le (l : List MPoint) (q : MPoint) (hq : q ∈ l) :
    (sortByTimestamp l).headI.timestamp ≤ q.timestamp := by
  have hq2 : q ∈ sortByTimestamp l := ((List.perm_insertionSort tsAsc l).mem_iff).mpr hq
  have hsort : List.Pairwise tsAsc (sortByTimestamp l) :=
    List.sorted_insertionSort tsAsc l
  cases hs : sortByTimestamp l with
  | nil =>
    rw [hs] at hq2
    cases hq2
  | cons h t =>
    rw [hs] at hq2 hsort
    simp only [List.headI]
    rcases List.mem_cons.mp hq2 with rfl | hq3
    · exact le_refl _
    · exact List.rel_of_sorted_cons hsort q hq3

theorem sortByTimestamp_headI_mem (l : List MPoint) (hne : l ≠ []) :
    (sortByTimestamp l).headI ∈ l := by
  have hperm : (sortByTimestamp l).Perm l := List.perm_insertionSort tsAsc l
  cases hs : sortByTimestamp l with
  | nil =>
    rw [hs] at hperm
    exact absurd (List.eq_nil_of_length_eq_zero hperm.length_eq.symm) hne
  | cons h t =>
    rw [hs] at hperm
    simp only [List.headI]
    exact hperm.mem_iff.mp (List.mem_cons_self h t)

theorem length_filter_beq_id (pts : List MPoint) (x : ℕ) :
    (pts.filter (fun p => p.id == x)).length = List.count x (pts.map MPoint.id) := by
  induction pts with
  | nil => rfl
  | cons p l ih =>
    by_cases h : p.id = x
    · simp [List.filter_cons, List.count_cons, h, ih]
    · simp [List.filter_cons, List.count_cons, h, ih, Ne.symm h]

theorem removeOldestMessage_ok (pts existing : List MPoint) (hne : existing ≠ []) :
    removeOldestMessage false (some pts) existing =
      some (pts.filter (fun p => !(p.id == (sortByTimestamp existing).headI.id))) := by
  cases existing with
  | nil => exact absurd rfl hne
  | cons e es => rfl

theorem addMessageVector_cfgOk (em : EmbModel) (pts : List MPoint) (a : MsgArgs) :
    addMessageVector cfgOk em (some pts) a =
      some ((if 50 ≤ (pts.take 100).length
             then pts.filter
               (fun p => !(p.id == (sortByTimestamp (pts.take 100)).headI.id))
             else pts) ++
        [newPoint (em.dense a.userMsg) (em.sparse a.userMsg).1
          (em.sparse a.userMsg).2 a]) := by
  by_cases h : 50 ≤ (pts.take 100).length
  · have hne : pts.take 100 ≠ [] := by
      intro h0
      rw [h0] at h
      simp at h
    rw [if_pos h]
    simp only [addMessageVector, addMessageBody, cfgOk, ensureCollectionExists,
      getAllMessages, qdScroll, embedE, qdUpsert, Bool.false_eq_true, if_false,
      if_pos h, removeOldestMessage_ok pts (pts.take 100) hne]
  · rw [if_neg h]
    simp only [addMessageVector, addMessageBody, cfgOk, ensureCollectionExists,
      getAllMessages, qdScroll, embedE, qdUpsert, Bool.false_eq_true, if_false,
      if_neg h]

theorem windowList_length (em : EmbModel) (ts : ℕ → ℕ) (n : ℕ) :
    (windowList em ts n).length = min n 50 := by
  rw [windowList, List.length_map, List.length_range']

theorem windowList_sorted (em : EmbModel) (ts : ℕ → ℕ) (hts : StrictMono ts)
    (n : ℕ) : List.Sorted tsAsc (windowList em ts n) := by
  rw [windowList]
  exact List.Pairwise.map _ (fun a b hab => le_of_lt (hts hab))
    (List.pairwise_lt_range' _ _)

theorem runRecord_succ (em : EmbModel) (ts : ℕ → ℕ) (hts : StrictMono ts) :
    ∀ n : ℕ, runRecord em ts (n + 1) = some (windowList em ts (n + 1)) := by
  intro n
  induction n with
  | zero => rfl
  | succ n ih =>
    have hstep : runRecord em ts (n + 2) =
        addMessageVector cfgOk em (runRecord em ts (n + 1)) (seqArgs ts (n + 1)) := rfl
    rw [hstep, ih, addMessageVector_cfgOk]
    have hlen : (windowList em ts (n + 1)).length = min (n + 1) 50 :=
      windowList_length em ts (n + 1)
    have hle100 : (windowList em ts (n + 1)).length ≤ 100 := by
      rw [hlen]; omega
    rw [List.take_of_length_le hle100]
    have hnewpt : newPoint (em.dense (seqArgs ts (n + 1)).userMsg)
        (em.sparse (seqArgs ts (n + 1)).userMsg).1
        (em.sparse (seqArgs ts (n + 1)).userMsg).2 (seqArgs ts (n + 1)) =
        seqPoint em ts (n + 1) := rfl
    rw [hnewpt]
    by_cases hc : 50 ≤ n + 1
    · rw [if_pos (by rw [hlen]; omega)]
      have hmin : min (n + 1) 50 = 50 := by omega
      have hdecomp : windowList em ts (n + 1) =
          seqPoint em ts (n + 1 - 50) ::
            (List.range' (n + 1 - 50 + 1) 49).map (seqPoint em ts) := by
        rw [windowList, hmin]
        rw [show (50 : ℕ) = 49 + 1 from rfl, List.range'_succ, List.map_cons]
      have hsorted := windowList_sorted em ts hts (n + 1)
      rw [sortByTimestamp, hsorted.insertionSort_eq, hdecomp]
      simp only [List.headI]
      rw [show (seqPoint em ts (n + 1 - 50)).id = n + 1 - 50 from rfl]
      rw [List.filter_cons]
      have hhead : (!(seqPoint em ts (n + 1 - 50)).id == n + 1 - 50) = false := by
        simp [seqPoint, newPoint, seqArgs]
      simp only [hhead, Bool.false_eq_true, if_false]
      have htail : ((List.range' (n + 1 - 50 + 1) 49).map (seqPoint em ts)).filter
          (fun p => !(p.id == n + 1 - 50)) =
          (List.range' (n + 1 - 50 + 1) 49).map (seqPoint em ts) := by
        rw [List.filter_eq_self]
        intro p hp
        obtain ⟨x, hx, rfl⟩ := List.mem_map.mp hp
        obtain ⟨i, _, hxe⟩ := List.mem_range'.mp hx
        have hxid : (seqPoint em ts x).id = x := rfl
        have hne : x ≠ n + 1 - 50 := by omega
        simp [hxid]
        omega
      rw [htail]
      have hmin2 : min (n + 2) 50 = 50 := by omega
      have hstart : n + 2 - 50 = n + 1 - 50 + 1 := by omega
      have hwin2 : windowList em ts (n + 2) =
          (List.range' (n + 1 - 50 + 1) 49).map (seqPoint em ts) ++
            [seqPoint em ts (n + 1)] := by
        rw [windowList, hmin2, hstart]
        have hconcat : List.range' (n + 1 - 50 + 1) 50 =
            List.range' (n + 1 - 50 + 1) 49 ++ [n + 1 - 50 + 1 + 1 * 49] :=
          List.range'_concat (n + 1 - 50 + 1) 49
        rw [hconcat, List.map_append]
        have harith : n + 1 - 50 + 1 + 1 * 49 = n + 1 := by omega
        rw [harith]
        simp
      rw [hwin2]
    · rw [if_neg (by rw [hlen]; omega)]
      have hmin1 : min (n + 1) 50 = n + 1 := by omega
      have hmin2 : min (n + 2) 50 = n + 2 := by omega
      rw [windowList, windowList, hmin1, hmin2, Nat.sub_self, Nat.sub_self]
      have hconcat : List.range' 0 (n + 1 + 1) = List.range' 0 (n + 1) ++ [0 + 1 * (n + 1)] :=
        List.range'_concat 0 (n + 1)
      rw [show (n : ℕ) + 2 = n + 1 + 1 from rfl, hconcat, List.map_append]
      simp

theorem scoresOf_eq (l : List RPoint) (h : (l.map RPoint.id).Nodup) :
    scoresOf l = l.map (fun r => (r.id, r.score)) := by
  apply dictOfList_eq_self
  rw [List.map_map]
  have hc : (Prod.fst ∘ fun r : RPoint => (r.id, r.score)) = RPoint.id := rfl
  rw [hc]
  exact h

theorem mem_unionIds (dense sparse : List RPoint)
    (hd : (dense.map RPoint.id).Nodup) (hs : (sparse.map RPoint.id).Nodup)
    (x : String) :
    x ∈ unionIds dense sparse ↔
      x ∈ dense.map RPoint.id ∨ x ∈ sparse.map RPoint.id := by
  rw [unionIds, List.mem_dedup, List.mem_append, scoresOf_eq dense hd,
    scoresOf_eq sparse hs, List.map_map, List.map_map]
  have hc : (Prod.fst ∘ fun r : RPoint => (r.id, r.score)) = RPoint.id := rfl
  rw [hc]

theorem relu_nonneg (x : ℚ) : 0 ≤ relu x := le_max_left 0 x

theorem reluLog_nonneg (lg : ℚ → ℚ) (hlg : ∀ x : ℚ, 1 ≤ x → 0 ≤ lg x) (x : ℚ) :
    0 ≤ reluLog lg x :=
  hlg _ (le_add_of_nonneg_right (relu_nonneg x))

theorem weightedLog_nonneg (lg : ℚ → ℚ) (hlg : ∀ x : ℚ, 1 ≤ x → 0 ≤ lg x) :
    ∀ (mask : List ℚ) (logits : List (List ℚ)), (∀ m ∈ mask, 0 ≤ m) →
      ∀ row ∈ weightedLog lg logits mask, ∀ v ∈ row, 0 ≤ v := by
  intro mask
  induction mask with
  | nil =>
    intro logits _ row hrow
    simp [weightedLog] at hrow
  | cons m ms ih =>
    intro logits hm row hrow
    cases logits with
    | nil => simp [weightedLog] at hrow
    | cons r rs =>
      rw [weightedLog, List.zipWith_cons_cons] at hrow
      rcases List.mem_cons.mp hrow with rfl | hrow2
      · intro v hv
        obtain ⟨x, _, rfl⟩ := List.mem_map.mp hv
        exact mul_nonneg (reluLog_nonneg lg hlg x) (hm m (List.mem_cons_self m ms))
      · exact ih rs (fun q hq => hm q (List.mem_cons_of_mem m hq)) row hrow2

theorem mem_zipWith_max (a b : List ℚ) :
    ∀ v ∈ List.zipWith max a b, ∃ x ∈ a, ∃ y ∈ b, v = max x y := by
  induction a generalizing b with
  | nil =>
    intro v hv
    simp at hv
  | cons x xs ih =>
    intro v hv
    cases b with
    | nil => simp at hv
    | cons y ys =>
      rw [List.zipWith_cons_cons] at hv
      rcases List.mem_cons.mp hv with rfl | hv2
      · exact ⟨x, List.mem_cons_self x xs, y, List.mem_cons_self y ys, rfl⟩
      · obtain ⟨x2, hx2, y2, hy2, rfl⟩ := ih ys v hv2
        exact ⟨x2, List.mem_cons_of_mem x hx2, y2, List.mem_cons_of_mem y hy2, rfl⟩

theorem foldl_zipWith_max_nonneg :
    ∀ (rs : List (List ℚ)) (acc : List ℚ), (∀ v ∈ acc, 0 ≤ v) →
      (∀ row ∈ rs, ∀ v ∈ row, 0 ≤ v) →
      ∀ v ∈ rs.foldl (fun acc row => List.zipWith max acc row) acc, 0 ≤ v := by
  intro rs
  induction rs with
  | nil =>
    intro acc hacc _ v hv
    exact hacc v hv
  | cons r rs ih =>
    intro acc hacc hrows v hv
    rw [List.foldl_cons] at hv
    refine ih (List.zipWith max acc r) ?_
      (fun row hrow => hrows row (List.mem_cons_of_mem r hrow)) v hv
    intro w hw
    obtain ⟨x, hx, y, _, rfl⟩ := mem_zipWith_max acc r w hw
    exact le_trans (hacc x hx) (le_max_left x y)

theorem maxPool_nonneg (rows : List (List ℚ))
    (h : ∀ row ∈ rows, ∀ v ∈ row, 0 ≤ v) : ∀ v ∈ maxPool rows, 0 ≤ v := by
  cases rows with
  | nil =>
    intro v hv
    simp [maxPool] at hv
  | cons r rs =>
    intro v hv
    exact foldl_zipWith_max_nonneg rs r (h r (List.mem_cons_self r rs))
      (fun row hrow => h row (List.mem_cons_of_mem r hrow)) v hv

theorem sparseVec_nonneg (lg : ℚ → ℚ) (hlg : ∀ x : ℚ, 1 ≤ x → 0 ≤ lg x)
    (logits : List (List ℚ)) (mask : List ℚ) (hmask : ∀ m ∈ mask, 0 ≤ m) :
    ∀ v ∈ sparseVec lg logits mask, 0 ≤ v :=
  maxPool_nonneg _ (weightedLog_nonneg lg hlg mask logits hmask)

theorem enum_mem_getD (l : List ℚ) (p : ℕ × ℚ) (h : p ∈ l.enum) :
    l.getD p.1 0 = p.2 ∧ p.2 ∈ l := by
  have h2 : (p.1, p.2) ∈ List.enumFrom 0 l := h
  obtain ⟨_, hlt, hx⟩ := List.mem_enumFrom h2
  have hi : p.1 < l.length := by simpa using hlt
  simp only [Nat.sub_zero] at hx
  constructor
  · rw [List.getD_eq_getElem l 0 hi]
    exact hx.symm
  · rw [hx]
    exact List.getElem_mem hi

/-! ## Claim theorems -/

/-- C2: for every pair of duplicate-free result lists and every valid
iteration order of the candidate set, rrf computes for every candidate id
the fused score 1/(k + rank_dense) + 1/(k + rank_sparse), where a rank is
the 1-based position under the score-descending order and an id absent from
a list gets rank (that list's length + 1); and the candidate set before the
top-N cap is exactly the union of the ids of the two input lists. -/
theorem c2_fused_score_formula_and_completeness (dense sparse : List RPoint)
    (k : ℕ) (enum : List String) (hd : (dense.map RPoint.id).Nodup)
    (hs : (sparse.map RPoint.id).Nodup) (he : ValidEnum dense sparse enum) :
    (∀ x, (x ∈ dense.map RPoint.id ∨ x ∈ sparse.map RPoint.id) ↔
        x ∈ (rrfScoresList dense sparse k enum).map Prod.fst) ∧
    (∀ x ∈ (rrfScoresList dense sparse k enum).map Prod.fst,
        dictGet? (rrfScoresList dense sparse k enum) x =
          some (specFusedScore dense sparse k x)) := by
  have hnd := validEnum_nodup he
  rw [rrfScoresList_eq_map dense sparse k enum hnd]
  have hids : (enum.map (fun x => (x, fusedScore dense sparse k x))).map Prod.fst
      = enum := by
    rw [List.map_map]
    have hc : (Prod.fst ∘ fun x : String => (x, fusedScore dense sparse k x)) = id := rfl
    rw [hc, List.map_id]
  rw [hids]
  have hrank_d : rankGet (scoresOf dense) dense.length = specRankDescending dense := by
    rw [scoresOf_eq dense hd]
    rfl
  have hrank_s : rankGet (scoresOf sparse) sparse.length = specRankDescending sparse := by
    rw [scoresOf_eq sparse hs]
    rfl
  have hfs : fusedScore dense sparse k = specFusedScore dense sparse k := by
    funext x
    rw [fusedScore, specFusedScore, hrank_d, hrank_s]
  constructor
  · intro x
    rw [← mem_unionIds dense sparse hd hs x]
    exact (he.mem_iff).symm
  · intro x hx
    rw [dictGet?_map_pair (fusedScore dense sparse k) enum x, if_pos hx, hfs]

/-- C2 witness: the formula and completeness instantiated at the literal
spec fixture with the canonical enumeration. -/
theorem c2_witness :
    (∀ x, (x ∈ fixtureDense.map RPoint.id ∨ x ∈ fixtureSparse.map RPoint.id) ↔
        x ∈ (rrfScoresList fixtureDense fixtureSparse 60
          (unionIds fixtureDense fixtureSparse)).map Prod.fst) ∧
    (∀ x ∈ (rrfScoresList fixtureDense fixtureSparse 60
        (unionIds fixtureDense fixtureSparse)).map Prod.fst,
        dictGet? (rrfScoresList fixtureDense fixtureSparse 60
          (unionIds fixtureDense fixtureSparse)) x =
          some (specFusedScore fixtureDense fixtureSparse 60 x)) :=
  c2_fused_score_formula_and_completeness fixtureDense fixtureSparse 60
    (unionIds fixtureDense fixtureSparse) (by decide) (by decide)
    (List.Perm.refl _)

/-- C3 (amended): each selected point yields one line per requested key of
the form "Context idx: value" — the position label is repeated on every
line and the key name does not appear — lines joined by newlines and blocks
joined by the fixed 66-dash separator. -/
theorem c3_amended_projection (dense sparse : List RPoint) (nPoints k : ℕ)
    (payloadKeys : List String) (enum : List String) :
    rrf dense sparse nPoints k payloadKeys enum =
      String.intercalate rrfSeparator
        ((topDocIds dense sparse nPoints k enum).enum.map
          (fun q => amendedBlock q.1
            (dictGetD (docLookup dense sparse) q.2 default).payload
            payloadKeys)) := by
  rw [rrf, buildChunks_eq_map]
  rfl

/-- C4: after N sequential record calls on a fresh collection with strictly
increasing timestamps and a healthy backing index, the collection holds
exactly min N 50 points, and once N exceeds 50 the point carrying the
smallest timestamp is gone (indeed every surviving timestamp is larger). -/
theorem c4_window_invariant (em : EmbModel) (ts : ℕ → ℕ) (N : ℕ)
    (hts : StrictMono ts) :
    (collectionPoints (runRecord em ts N)).length = min N 50 ∧
    (50 < N → seqPoint em ts 0 ∉ collectionPoints (runRecord em ts N) ∧
      ∀ p ∈ collectionPoints (runRecord em ts N), ts 0 < p.timestamp) := by
  cases N with
  | zero =>
    exact ⟨rfl, fun h => absurd h (by omega)⟩
  | succ n =>
    rw [runRecord_succ em ts hts n]
    have hpts : collectionPoints (some (windowList em ts (n + 1))) =
        windowList em ts (n + 1) := rfl
    rw [hpts]
    refine ⟨windowList_length em ts (n + 1), fun h50 => ⟨?_, ?_⟩⟩
    · intro hmem
      rw [windowList] at hmem
      obtain ⟨x, hx, heq⟩ := List.mem_map.mp hmem
      obtain ⟨i, _, hxe⟩ := List.mem_range'.mp hx
      have htx : ts x = ts 0 := congrArg MPoint.timestamp heq
      have hx0 : x = 0 := hts.injective htx
      have hmin : min (n + 1) 50 = 50 := by omega
      rw [hmin] at hxe
      omega
    · intro p hp
      rw [windowList] at hp
      obtain ⟨x, hx, rfl⟩ := List.mem_map.mp hp
      obtain ⟨i, _, hxe⟩ := List.mem_range'.mp hx
      have hmin : min (n + 1) 50 = 50 := by omega
      rw [hmin] at hxe
      have hxpos : 0 < x := by omega
      exact hts hxpos

/-- C4 witness: 51 sequential calls with the identity timestamps leave
exactly 50 points and evict the first point. -/
theorem c4_witness :
    (collectionPoints (runRecord emConst (fun i => i) 51)).length = min 51 50 ∧
    (50 < 51 →
      seqPoint emConst (fun i => i) 0 ∉
        collectionPoints (runRecord emConst (fun i => i) 51) ∧
      ∀ p ∈ collectionPoints (runRecord emConst (fun i => i) 51),
        (fun i : ℕ => i) 0 < p.timestamp) :=
  c4_window_invariant emConst (fun i => i) 51 (fun _ _ h => h)

/-- C5: in one record call on a collection with duplicate-free ids, if the
listing has at least 50 points then exactly one point is deleted — the
first under ascending payload timestamp among the listed points (a point of
minimal timestamp) — before the new point is appended; below 50 nothing is
deleted. -/
theorem c5_evict_exactly_oldest (em : EmbModel) (pts : List MPoint)
    (a : MsgArgs) (hnd : (pts.map MPoint.id).Nodup) :
    (50 ≤ (pts.take 100).length →
      addMessageVector cfgOk em (some pts) a =
        some (pts.filter
            (fun p => !(p.id == (sortByTimestamp (pts.take 100)).headI.id)) ++
          [newPoint (em.dense a.userMsg) (em.sparse a.userMsg).1
            (em.sparse a.userMsg).2 a]) ∧
      (pts.filter
          (fun p => p.id == (sortByTimestamp (pts.take 100)).headI.id)).length
        = 1 ∧
      (sortByTimestamp (pts.take 100)).headI ∈ pts.take 100 ∧
      (∀ q ∈ pts.take 100,
        (sortByTimestamp (pts.take 100)).headI.timestamp ≤ q.timestamp)) ∧
    ((pts.take 100).length < 50 →
      addMessageVector cfgOk em (some pts) a =
        some (pts ++ [newPoint (em.dense a.userMsg) (em.sparse a.userMsg).1
          (em.sparse a.userMsg).2 a])) := by
  constructor
  · intro h50
    have hne : pts.take 100 ≠ [] := by
      intro h0
      rw [h0] at h50
      simp at h50
    have hmem : (sortByTimestamp (pts.take 100)).headI ∈ pts.take 100 :=
      sortByTimestamp_headI_mem _ hne
    refine ⟨?_, ?_, hmem, fun q hq => sortByTimestamp_headI_le _ q hq⟩
    · rw [addMessageVector_cfgOk, if_pos h50]
    · rw [length_filter_beq_id]
      exact List.count_eq_one_of_mem hnd
        (List.mem_map_of_mem MPoint.id (List.mem_of_mem_take hmem))
  · intro hlt
    rw [addMessageVector_cfgOk, if_neg (by omega)]

/-- C5 witness: the eviction branch exercised on a concrete 50-point
collection. -/
theorem c5_witness :
    addMessageVector cfgOk emConst (some c5Pts) c5Args =
      some (c5Pts.filter
          (fun p => !(p.id == (sortByTimestamp (c5Pts.take 100)).headI.id)) ++
        [newPoint (emConst.dense c5Args.userMsg)
          (emConst.sparse c5Args.userMsg).1
          (emConst.sparse c5Args.userMsg).2 c5Args]) :=
  ((c5_evict_exactly_oldest emConst c5Pts c5Args (by decide)).1 (by decide)).1

/-- C6 counterexample: on an absent collection get_recent_conversations
returns the empty string produced by its exception handler, not the
"first message" sentinel the claim requires. -/
theorem c6_counterexample :
    getRecentConversations false none 50 = "" ∧
    getRecentConversations false none 50 ≠ firstMessageSentinel := by
  exact ⟨rfl, by decide⟩

/-- C6 (amended): get_recent_conversations never raises; it returns the
"first message" sentinel exactly when the collection exists and the scroll
returns no points, and returns the empty string when the collection is
absent or the scroll fails. -/
theorem c6_amended_recent_sentinel (fail : Bool) (limit : ℕ) :
    getRecentConversations fail (some []) limit =
      (if fail then "" else firstMessageSentinel) ∧
    getRecentConversations fail none limit = "" := by
  cases fail
  · constructor
    · simp [getRecentConversations, qdScroll, List.take_nil]
    · rfl
  · exact ⟨rfl, rfl⟩

/-- C7 counterexample: when the underlying model computation fails (for
example the model is not loaded), embed does not fail with any error — it
returns Except.ok ([], [], []), whose dense component is the empty vector,
not a zero vector of the model dimension 384. -/
theorem c7_counterexample :
    embedE true false emConst "hello" = Except.ok ([], ([], [])) ∧
    ¬(([] : List ℚ).length = 384) :=
  ⟨rfl, by decide⟩

/-- C7 (amended): embed never raises; if either underlying computation
fails it returns ([], [], []) — an empty dense vector — and otherwise it
returns the model outputs unchanged; it performs no empty-input check. -/
theorem c7_amended_embed_total (dFail sFail : Bool) (em : EmbModel)
    (text : String) :
    embedE dFail sFail em text =
      Except.ok (if dFail || sFail then ([], ([], []))
                 else (em.dense text, em.sparse text)) := by
  cases dFail <;> cases sFail <;> rfl

/-- C8: the sparse vector produced by compute_sparse_vector has pairwise
distinct indices, index and value lists of equal length, and strictly
positive values — given that the float log is non-negative on [1, ∞) and
the attention mask is non-negative. -/
theorem c8_sparse_vector_invariants (lg : ℚ → ℚ) (logits : List (List ℚ))
    (mask : List ℚ) (hlg : ∀ x : ℚ, 1 ≤ x → 0 ≤ lg x)
    (hmask : ∀ m ∈ mask, 0 ≤ m) :
    (computeSparse lg logits mask).1.Nodup ∧
    (computeSparse lg logits mask).1.length =
      (computeSparse lg logits mask).2.length ∧
    (∀ v ∈ (computeSparse lg logits mask).2, 0 < v) := by
  refine ⟨?_, ?_, ?_⟩
  · show (((sparseVec lg logits mask).enum.filter
      (fun p => !(p.2 == 0))).map Prod.fst).Nodup
    have hsub : (((sparseVec lg logits mask).enum.filter
        (fun p => !(p.2 == 0))).map Prod.fst).Sublist
        ((sparseVec lg logits mask).enum.map Prod.fst) :=
      (List.filter_sublist _).map Prod.fst
    rw [List.enum_map_fst] at hsub
    exact hsub.nodup (List.nodup_range _)
  · simp [computeSparse]
  · intro v hv
    simp only [computeSparse] at hv
    obtain ⟨i, hi, rfl⟩ := List.mem_map.mp hv
    obtain ⟨p, hp, hpi⟩ := List.mem_map.mp hi
    obtain ⟨hpe, hpred⟩ := List.mem_filter.mp hp
    obtain ⟨hget, hmem⟩ := enum_mem_getD (sparseVec lg logits mask) p hpe
    rw [← hpi, hget]
    have h0 : 0 ≤ p.2 := sparseVec_nonneg lg hlg logits mask hmask p.2 hmem
    have hne : p.2 ≠ 0 := by simpa using hpred
    exact lt_of_le_of_ne h0 (Ne.symm hne)

/-- C8 witness: the invariants instantiated with a concrete admissible log
surrogate, logits and mask. -/
theorem c8_witness :
    (computeSparse (fun x => x - 1) [[1, -2]] [1]).1.Nodup ∧
    (computeSparse (fun x => x - 1) [[1, -2]] [1]).1.length =
      (computeSparse (fun x => x - 1) [[1, -2]] [1]).2.length ∧
    (∀ v ∈ (computeSparse (fun x => x - 1) [[1, -2]] [1]).2, 0 < v) :=
  c8_sparse_vector_invariants (fun x => x - 1) [[1, -2]] [1]
    (fun x hx => by show (0 : ℚ) ≤ x - 1; linarith)
    (fun m hm => by rw [List.mem_singleton.mp hm]; norm_num)

/-- C9 (amended): rrf is deterministic given the iteration order of the
hash-ordered candidate id set, and whenever the fused scores of the
candidates are pairwise distinct its output does not depend on that order
at all, so it is then a function of the two input lists alone. -/
theorem c9_amended_determinism (dense sparse : List RPoint) (nPoints k : ℕ)
    (payloadKeys : List String) (e1 e2 : List String)
    (h1 : ValidEnum dense sparse e1) (h2 : ValidEnum dense sparse e2)
    (hinj : ((unionIds dense sparse).map (fusedScore dense sparse k)).Nodup) :
    rrf dense sparse nPoints k payloadKeys e1 =
      rrf dense sparse nPoints k payloadKeys e2 := by
  rw [rrf, rrf,
    topDocIds_enum_irrelevant dense sparse nPoints k e1 e2 h1 h2 hinj]

/-- C10: add_message_vector always returns normally: for every combination
of injected failures of its create, list, evict, embed and upsert steps it
yields Except.ok — the exception never escapes to the caller. -/
theorem c10_record_never_raises (cfg : FailCfg) (em : EmbModel) (s : QState)
    (a : MsgArgs) : ∃ s2, addMessageVectorExc cfg em s a = Except.ok s2 := by
  cases h : addMessageBody cfg em s a with
  | ok s3 => exact ⟨s3, by simp only [addMessageVectorExc, h]⟩
  | error sf => exact ⟨sf, by simp only [addMessageVectorExc, h]⟩

section ConcreteEvaluation

attribute [local semireducible] Rat.add Rat.mul Rat.inv

/-- C1 counterexample: on the literal spec fixture with cap 2 and k = 60,
the fusion does not return [A, B]: B's fused score 1/62 + 1/61 exceeds A's
1/61 + 1/63. -/
theorem c1_counterexample :
    ValidEnum fixtureDense fixtureSparse ["A", "B", "C", "D"] ∧
    topDocIds fixtureDense fixtureSparse 2 60 ["A", "B", "C", "D"] ≠
      ["A", "B"] := by
  exact ⟨by decide, by decide⟩

/-- C1 (amended): on the literal spec fixture the top-capped result is
exactly [B, A], for every valid iteration order of the candidate set. -/
theorem c1_amended_fusion_fixture (enum : List String)
    (he : ValidEnum fixtureDense fixtureSparse enum) :
    topDocIds fixtureDense fixtureSparse 2 60 enum = ["B", "A"] := by
  rw [topDocIds_enum_irrelevant fixtureDense fixtureSparse 2 60 enum
    ["A", "B", "C", "D"] he (by decide) (by decide)]
  decide

/-- C1 witness: the amended fixture result at a concrete enumeration. -/
theorem c1_witness :
    topDocIds fixtureDense fixtureSparse 2 60 ["D", "C", "B", "A"] =
      ["B", "A"] :=
  c1_amended_fusion_fixture ["D", "C", "B", "A"] (by decide)

/-- C3 counterexample: with one selected point whose payload maps
user_message to hi, the projected line is "Context 0: hi" — the block label
repeated on the line and no key name — not the "key: value" line the claim
describes. -/
theorem c3_counterexample :
    rrf c3Dense [] 1 60 ["user_message"] ["A"] = "Context 0: hi" ∧
    rrf c3Dense [] 1 60 ["user_message"] ["A"] ≠
      specKeyLine "user_message" "hi" := by
  exact ⟨by decide, by decide⟩

/-- C9 counterexample: with tied fused scores, two valid iteration orders
of the candidate set produce different output strings, so the output is not
a function of the two input lists alone and the tie is not broken by
first-encounter order. -/
theorem c9_counterexample :
    ValidEnum tieDense tieSparse ["X", "Y"] ∧
    ValidEnum tieDense tieSparse ["Y", "X"] ∧
    rrf tieDense tieSparse 1 60 ["c"] ["X", "Y"] ≠
      rrf tieDense tieSparse 1 60 ["c"] ["Y", "X"] := by
  exact ⟨by decide, by decide, by decide⟩

/-- C9 witness: on the spec fixture (pairwise distinct fused scores) two
different valid enumerations give identical output. -/
theorem c9_witness :
    rrf fixtureDense fixtureSparse 2 60 ["content"] ["A", "B", "C", "D"] =
      rrf fixtureDense fixtureSparse 2 60 ["content"] ["D", "C", "B", "A"] :=
  c9_amended_determinism fixtureDense fixtureSparse 2 60 ["content"]
    ["A", "B", "C", "D"] ["D", "C", "B", "A"] (by decide) (by decide)
    (by decide)

end ConcreteEvaluation
